import Mathlib

/-!
Shallow embedding of NanoTask (src/NanoTask.hpp).

The repository is a single C++ header defining a cooperative interval
scheduler:

* class Task      — a periodic timer around one bound callable
                    (fields mHasSetInterval, mTask, mNextExecStamp,
                    mNanoInterval; operations setIntervalChronoNanos,
                    OnIntervalChanged, CanExecuteTask, Update)
* class TaskManager — a string-keyed map of exclusively owned Tasks
                    (operations Add, Remove, Update)

Modelling decisions, all visible in the definitions below:

* Time: CurrNanoTimeStamp() reads the high-resolution clock and casts to
  an integral nanosecond count (a signed 64-bit representation; no value
  in any claim approaches overflow, so counts are embedded as plain Int).
  The clock is the only implicit input of the C++ code; here every
  operation that calls CurrNanoTimeStamp() in the source takes the
  current timestamp as an explicit Int argument instead.
* The bound callable mTask (std::function with all arguments pre-bound,
  hence nullary) is embedded as a function W → W on an abstract external
  world W; invoking the callable applies that function to the world that
  is threaded through every operation.  An operation invokes the callable
  exactly once iff its output world is mTask applied once to its input
  world, for every choice of W and mTask.
* For the exception-propagation claim a second, parallel embedding
  TaskE / updateAllE gives the callable type W → Except E W: the C++
  code contains no try/catch anywhere, so a raised exception unwinds
  Task::Update and aborts the range-for loop of TaskManager::Update.
* std::unordered_map is embedded as an association list with unique keys;
  its unspecified iteration order is accounted for by proving the
  order-sensitive facts invariant under permutation of the entry list.
* std::unique_ptr ownership in TaskManager::Add is embedded by returning,
  next to the new registry, an Option (Task W): some t when the pointer
  of the caller still owns the task after the call (the rejected-duplicate
  path returns before the std::move), none when ownership moved into the
  registry.
-/

namespace NanoTask

/-- State of class Task.  The C++ members, in declaration order:
bool mHasSetInterval; std::function<void()> mTask;
std::chrono::nanoseconds mNextExecStamp; std::chrono::nanoseconds
mNanoInterval.  The callable is a function on an abstract world W. -/
structure Task (W : Type) where
  mHasSetInterval : Bool
  mTask : W → W
  mNextExecStamp : Int
  mNanoInterval : Int

/-- Task::OnIntervalChanged: mNextExecStamp = CurrNanoTimeStamp() + mNanoInterval.
The clock value is the explicit argument now. -/
def Task.OnIntervalChanged {W : Type} (t : Task W) (now : Int) : Task W :=
  { t with mNextExecStamp := now + t.mNanoInterval }

/-- Task::setIntervalChronoNanos: mNanoInterval = intervl; mHasSetInterval = true;
OnIntervalChanged().  The body never calls mTask, so the world passes
through unchanged. -/
def Task.setIntervalChronoNanos {W : Type} (t : Task W) (intervl : Int)
    (now : Int) (w : W) : Task W × W :=
  (Task.OnIntervalChanged
    { t with mNanoInterval := intervl, mHasSetInterval := true } now, w)

/-- Task::setIntervalSecs: setInterval(std::chrono::seconds(secs)), whose
duration_cast to nanoseconds multiplies by 10^9. -/
def Task.setIntervalSecs {W : Type} (t : Task W) (secs : Int)
    (now : Int) (w : W) : Task W × W :=
  Task.setIntervalChronoNanos t (secs * 1000000000) now w

/-- Task::setIntervalMillis: setInterval(std::chrono::milliseconds(millis)),
whose duration_cast to nanoseconds multiplies by 10^6. -/
def Task.setIntervalMillis {W : Type} (t : Task W) (millis : Int)
    (now : Int) (w : W) : Task W × W :=
  Task.setIntervalChronoNanos t (millis * 1000000) now w

/-- Task::setIntervalNanos: setInterval(std::chrono::nanoseconds(nanos)). -/
def Task.setIntervalNanos {W : Type} (t : Task W) (nanos : Int)
    (now : Int) (w : W) : Task W × W :=
  Task.setIntervalChronoNanos t nanos now w

/-- The Task constructor: mHasSetInterval = false; mTask = the bound
closure; setInterval(itrvl).  The two nanosecond members are
default-initialized to 0 here; both are overwritten by setInterval before
they can be read, so the choice is unobservable.  t0 is the clock value
at construction time. -/
def Task.construct {W : Type} (itrvl : Int) (f : W → W) (t0 : Int)
    (w : W) : Task W × W :=
  Task.setIntervalChronoNanos
    { mHasSetInterval := false, mTask := f,
      mNextExecStamp := 0, mNanoInterval := 0 } itrvl t0 w

/-- Task::CanExecuteTask: if mHasSetInterval is false return false; read
the clock (the explicit argument currTime); if mNextExecStamp > currTime
return false; otherwise mNextExecStamp = currTime + mNanoInterval and
return true.  Returned pair: the mutated task and the boolean result. -/
def Task.CanExecuteTask {W : Type} (t : Task W) (currTime : Int) :
    Task W × Bool :=
  if t.mHasSetInterval = false then (t, false)
  else if t.mNextExecStamp > currTime then (t, false)
  else ({ t with mNextExecStamp := currTime + t.mNanoInterval }, true)

/-- Task::Update: if CanExecuteTask() == false return; mTask(). -/
def Task.Update {W : Type} (t : Task W) (currTime : Int) (w : W) :
    Task W × W :=
  let r := Task.CanExecuteTask t currTime
  if r.2 = false then (r.1, w)
  else (r.1, r.1.mTask w)

/-- A sequence of Task::Update calls, one per listed clock value. -/
def Task.UpdateSeq {W : Type} (t : Task W) (times : List Int) (w : W) :
    Task W × W :=
  match times with
  | [] => (t, w)
  | u :: rest =>
    let r := Task.Update t u w
    Task.UpdateSeq r.1 rest r.2

/-- The task-state part of one Task::Update call; it does not depend on
the world. -/
def Task.step {W : Type} (t : Task W) (now : Int) : Task W :=
  (Task.CanExecuteTask t now).1

/-- Whether one Task::Update call at clock value now invokes the
callable; it does not depend on the world. -/
def Task.fires {W : Type} (t : Task W) (now : Int) : Bool :=
  (Task.CanExecuteTask t now).2

/-- State of class TaskManager: std::unordered_map<std::string,
std::unique_ptr<Task>> mAllTasks, embedded as an association list. -/
structure TaskManager (W : Type) where
  mAllTasks : List (String × Task W)

/-- TaskManager::Add(uid, tsk): if mAllTasks.find(uid) != end() return
(the unique_ptr of the caller is untouched, returned as some tsk); otherwise
mAllTasks[uid] = std::move(tsk) (ownership moves into the registry,
none is returned).  The rvalue-reference overloads on lines 204-223 of
the source bind the argument to an lvalue reference and delegate here,
so this one definition covers them. -/
def TaskManager.Add {W : Type} (m : TaskManager W) (uid : String)
    (tsk : Task W) : TaskManager W × Option (Task W) :=
  if (m.mAllTasks.lookup uid).isSome then (m, some tsk)
  else ({ mAllTasks := m.mAllTasks ++ [(uid, tsk)] }, none)

/-- TaskManager::Remove(uid): if mAllTasks.find(uid) == end() return;
mAllTasks.erase(uid).  erase removes the unique entry with that key and
destroys the owned Task; on the association list this is a filter. -/
def TaskManager.Remove {W : Type} (m : TaskManager W) (uid : String) :
    TaskManager W :=
  if (m.mAllTasks.lookup uid).isNone then m
  else { mAllTasks := m.mAllTasks.filter (fun p => p.1 != uid) }

/-- The loop body of TaskManager::Update: for (const auto and curr :
mAllTasks) curr.second->Update();  Each owned task is updated in place
exactly once, in iteration order, threading the world. -/
def updateAll {W : Type} (l : List (String × Task W)) (now : Int)
    (w : W) : List (String × Task W) × W :=
  match l with
  | [] => ([], w)
  | p :: rest =>
    let u := Task.Update p.2 now w
    let r := updateAll rest now u.2
    ((p.1, u.1) :: r.1, r.2)

/-- TaskManager::Update. -/
def TaskManager.Update {W : Type} (m : TaskManager W) (now : Int)
    (w : W) : TaskManager W × W :=
  let r := updateAll m.mAllTasks now w
  ({ mAllTasks := r.1 }, r.2)

/-! ## Exception-aware embedding (for the propagation claim)

The C++ callable may throw; neither Task::Update nor
TaskManager::Update contains a try/catch, so a throw unwinds through
Task::Update and aborts the range-for loop of TaskManager::Update.
TaskE is Task with a possibly-throwing callable W → Except E W. -/

/-- Task state with a possibly-throwing callable. -/
structure TaskE (W E : Type) where
  mHasSetInterval : Bool
  mTask : W → Except E W
  mNextExecStamp : Int
  mNanoInterval : Int

/-- Task::CanExecuteTask for TaskE; identical control flow (the body
never invokes the callable, so it cannot throw). -/
def TaskE.CanExecuteTask {W E : Type} (t : TaskE W E) (currTime : Int) :
    TaskE W E × Bool :=
  if t.mHasSetInterval = false then (t, false)
  else if t.mNextExecStamp > currTime then (t, false)
  else ({ t with mNextExecStamp := currTime + t.mNanoInterval }, true)

/-- Task::Update with a throwing callable: if CanExecuteTask() == false
return normally; mTask() — a throw propagates uncaught and unmodified. -/
def TaskE.Update {W E : Type} (t : TaskE W E) (currTime : Int) (w : W) :
    Except E (TaskE W E × W) :=
  let r := TaskE.CanExecuteTask t currTime
  if r.2 = false then Except.ok (r.1, w)
  else
    match r.1.mTask w with
    | Except.ok w2 => Except.ok (r.1, w2)
    | Except.error e => Except.error e

/-- The loop of TaskManager::Update over throwing callables: a throw
from the Update of one task aborts the loop; the remaining entries are not
polled. -/
def updateAllE {W E : Type} (l : List (String × TaskE W E)) (now : Int)
    (w : W) : Except E (List (String × TaskE W E) × W) :=
  match l with
  | [] => Except.ok ([], w)
  | p :: rest =>
    match TaskE.Update p.2 now w with
    | Except.error e => Except.error e
    | Except.ok (t2, w2) =>
      match updateAllE rest now w2 with
      | Except.error e => Except.error e
      | Except.ok (l2, w3) => Except.ok ((p.1, t2) :: l2, w3)

end NanoTask

namespace NanoTask

example : (Task.construct (W := Nat) 10 Nat.succ 100 0).1
    = { mHasSetInterval := true, mTask := Nat.succ,
        mNextExecStamp := 110, mNanoInterval := 10 } := rfl

example : (Task.Update (Task.mk true Nat.succ 110 10) 105 0).2 = 0 := rfl

example : (Task.Update (Task.mk true Nat.succ 110 10) 110 0).2 = 1 := rfl

example : (Task.Update (Task.mk true Nat.succ 110 10) 145 0).1.mNextExecStamp
    = 155 := rfl

end NanoTask

namespace NanoTask

/-! ## Basic lemmas about one Task::Update call -/

theorem canExecute_not_armed {W : Type} {t : Task W}
    (h : t.mHasSetInterval = false) (now : Int) :
    Task.CanExecuteTask t now = (t, false) := by
  simp [Task.CanExecuteTask, h]

theorem canExecute_early {W : Type} {t : Task W} {now : Int}
    (h : t.mHasSetInterval = true) (hlt : now < t.mNextExecStamp) :
    Task.CanExecuteTask t now = (t, false) := by
  simp [Task.CanExecuteTask, h, hlt]

theorem canExecute_due {W : Type} {t : Task W} {now : Int}
    (h : t.mHasSetInterval = true) (hle : t.mNextExecStamp ≤ now) :
    Task.CanExecuteTask t now
      = ({ t with mNextExecStamp := now + t.mNanoInterval }, true) := by
  simp [Task.CanExecuteTask, h, not_lt.mpr hle]

theorem update_not_armed {W : Type} {t : Task W}
    (h : t.mHasSetInterval = false) (now : Int) (w : W) :
    Task.Update t now w = (t, w) := by
  simp [Task.Update, canExecute_not_armed h]

theorem update_early {W : Type} {t : Task W} {now : Int}
    (h : t.mHasSetInterval = true) (hlt : now < t.mNextExecStamp) (w : W) :
    Task.Update t now w = (t, w) := by
  simp [Task.Update, canExecute_early h hlt]

theorem update_due {W : Type} {t : Task W} {now : Int}
    (h : t.mHasSetInterval = true) (hle : t.mNextExecStamp ≤ now) (w : W) :
    Task.Update t now w
      = ({ t with mNextExecStamp := now + t.mNanoInterval }, t.mTask w) := by
  simp [Task.Update, canExecute_due h hle]

/-! ## Lemmas about sequences of Task::Update calls -/

theorem updateSeq_not_armed {W : Type} {t : Task W}
    (h : t.mHasSetInterval = false) (times : List Int) (w : W) :
    Task.UpdateSeq t times w = (t, w) := by
  induction times generalizing w with
  | nil => rfl
  | cons u us ih =>
    simp only [Task.UpdateSeq, update_not_armed h u w]
    exact ih w

theorem updateSeq_early {W : Type} {t : Task W} {times : List Int}
    (h : ∀ u ∈ times, u < t.mNextExecStamp) (w : W) :
    Task.UpdateSeq t times w = (t, w) := by
  induction times generalizing w with
  | nil => rfl
  | cons u us ih =>
    have h1 : Task.Update t u w = (t, w) := by
      cases harm : t.mHasSetInterval with
      | false => exact update_not_armed harm u w
      | true => exact update_early harm (h u (by simp)) w
    simp only [Task.UpdateSeq, h1]
    exact ih (fun v hv => h v (by simp [hv])) w

/-! ## Claim theorems: Task -/

/-- C1: for a Task constructed at time t0 with interval I, every Update
call at a clock value strictly before t0 + I invokes no callable and
leaves the task state (and world) unchanged, and the first Update call
at a clock value at or after t0 + I invokes the callable exactly once
(the output world is one application of the bound function). -/
theorem fire_timing {W : Type} (I t0 : Int) (f : W → W) (w0 w : W)
    (times : List Int) (hb : ∀ u ∈ times, u < t0 + I)
    (u : Int) (hu : t0 + I ≤ u) :
    Task.UpdateSeq (Task.construct I f t0 w0).1 times w
      = ((Task.construct I f t0 w0).1, w)
    ∧ Task.Update (Task.construct I f t0 w0).1 u w
      = (Task.mk true f (u + I) I, f w) := by
  have hc : (Task.construct I f t0 w0).1 = Task.mk true f (t0 + I) I := rfl
  constructor
  · exact updateSeq_early (by rw [hc]; exact hb) w
  · rw [hc, update_due rfl hu]

/-- Witness for C1 at I = 10, t0 = 100, three early polls and a poll at 110. -/
theorem fire_timing_witness :
    ((∀ u ∈ ([102, 105, 109] : List Int), u < 100 + 10)
      ∧ (100 + 10 : Int) ≤ 110)
    ∧ (Task.UpdateSeq (Task.construct 10 Nat.succ 100 0).1 [102, 105, 109] 0
        = ((Task.construct 10 Nat.succ 100 0).1, 0)
      ∧ Task.Update (Task.construct 10 Nat.succ 100 0).1 110 0
        = (Task.mk true Nat.succ 120 10, 1)) :=
  ⟨⟨by decide, by decide⟩,
    fire_timing 10 100 Nat.succ 0 0 [102, 105, 109] (by decide) 110 (by decide)⟩

/-- C2: for an armed Task, one Update call invokes the callable at most
once, and if the clock has passed the deadline by n whole (nonnegative)
intervals for any n at least 1, that call invokes the callable exactly
once and sets the next deadline to now + interval, computed from now. -/
theorem non_accumulation {W : Type} (t : Task W) (now : Int) (w : W)
    (ha : t.mHasSetInterval = true) :
    ((Task.Update t now w).2 = w ∨ (Task.Update t now w).2 = t.mTask w)
    ∧ (∀ n : Nat, 1 ≤ n → 0 ≤ t.mNanoInterval →
        t.mNextExecStamp + n * t.mNanoInterval ≤ now →
        Task.Update t now w
          = ({ t with mNextExecStamp := now + t.mNanoInterval },
             t.mTask w)) := by
  constructor
  · by_cases hlt : now < t.mNextExecStamp
    · left
      rw [update_early ha hlt]
    · right
      rw [update_due ha (not_lt.mp hlt)]
  · intro n hn hI hle
    have hstamp : t.mNextExecStamp ≤ now := by
      have h1 : 0 ≤ (n : Int) * t.mNanoInterval :=
        mul_nonneg (by positivity) hI
      linarith
    exact update_due ha hstamp w

/-- Witness for C2: deadline 110, interval 10, polled at 135 (two whole
missed intervals); it fires once and reschedules to 145 = 135 + 10. -/
theorem non_accumulation_witness :
    Task.Update (Task.mk true Nat.succ 110 10) 135 0
      = (Task.mk true Nat.succ 145 10, 1) :=
  (non_accumulation (Task.mk true Nat.succ 110 10) 135 0 rfl).2 2
    (by decide) (by decide) (by decide)

/-- C3: setIntervalChronoNanos at clock value now stores the new
interval d, arms the task, and sets the next deadline to now + d,
independently of the previous deadline and elapsed progress (the task t
is arbitrary); the world is returned unchanged and the callable is
untouched, for every world and every bound function. -/
theorem rearm_on_interval_change {W : Type} (t : Task W) (d now : Int)
    (w : W) :
    Task.setIntervalChronoNanos t d now w
      = (Task.mk true t.mTask (now + d) d, w) := rfl

/-- C6: a Task whose interval was never set (mHasSetInterval false)
never invokes its callable and never changes state, over any sequence
of Update calls. -/
theorem disarmed_never_fires {W : Type} (t : Task W)
    (h : t.mHasSetInterval = false) (times : List Int) (w : W) :
    Task.UpdateSeq t times w = (t, w) :=
  updateSeq_not_armed h times w

/-- Witness for C6: a disarmed task polled three times changes nothing. -/
theorem disarmed_never_fires_witness :
    (Task.mk false Nat.succ 0 0).mHasSetInterval = false
    ∧ Task.UpdateSeq (Task.mk false Nat.succ 0 0) [1, 2, 3] 5
        = (Task.mk false Nat.succ 0 0, 5) :=
  ⟨rfl, disarmed_never_fires (Task.mk false Nat.succ 0 0) rfl [1, 2, 3] 5⟩

end NanoTask

namespace NanoTask

/-- Over a non-decreasing sequence of clock values that starts at or
after the current deadline, an armed task with zero interval fires on
every poll: the final world is the callable iterated once per poll. -/
theorem updateSeq_zero_interval {W : Type} :
    ∀ (times : List Int) (t : Task W) (w : W),
      t.mHasSetInterval = true → t.mNanoInterval = 0 →
      List.Chain (fun a b => a ≤ b) t.mNextExecStamp times →
      (Task.UpdateSeq t times w).2 = t.mTask^[times.length] w
  | [], _, _, _, _, _ => rfl
  | u :: us, t, w, ha, h0, hc => by
    rw [List.chain_cons] at hc
    have hdue := update_due ha hc.1 w
    simp only [Task.UpdateSeq, hdue]
    have hc2 : List.Chain (fun a b => a ≤ b)
        ({ t with mNextExecStamp := u + t.mNanoInterval }).mNextExecStamp us := by
      simpa [h0] using hc.2
    have h2 := updateSeq_zero_interval us
      { t with mNextExecStamp := u + t.mNanoInterval } (t.mTask w) ha h0 hc2
    rw [h2]
    simp [Function.iterate_succ_apply]

/-- C8: an armed Task whose interval is zero nanoseconds invokes its
callable on every Update call, given non-decreasing clock readings that
start at or after the arming deadline: after n polls the world is the
callable applied n times. -/
theorem zero_interval_fires_every_poll {W : Type} (t : Task W)
    (ha : t.mHasSetInterval = true) (h0 : t.mNanoInterval = 0)
    (times : List Int)
    (hc : List.Chain (fun a b => a ≤ b) t.mNextExecStamp times) (w : W) :
    (Task.UpdateSeq t times w).2 = t.mTask^[times.length] w :=
  updateSeq_zero_interval times t w ha h0 hc

/-- Witness for C8: zero-interval task armed at time 0, polled at
0, 3, 3, 7; the callable runs on all four polls. -/
theorem zero_interval_fires_every_poll_witness :
    ((Task.mk true Nat.succ 0 0).mHasSetInterval = true
      ∧ (Task.mk true Nat.succ 0 0).mNanoInterval = 0
      ∧ List.Chain (fun a b => a ≤ b) 0 [0, 3, 3, 7])
    ∧ (Task.UpdateSeq (Task.mk true Nat.succ 0 0) [0, 3, 3, 7] 0).2
        = Nat.succ^[4] 0 :=
  ⟨⟨rfl, rfl, by simp [List.chain_cons]⟩,
    zero_interval_fires_every_poll (Task.mk true Nat.succ 0 0) rfl rfl
      [0, 3, 3, 7] (by simp [List.chain_cons]) 0⟩

end NanoTask

namespace NanoTask

/-! ## Lemmas about the registry map -/

theorem lookup_filter_self {W : Type} (l : List (String × Task W))
    (k : String) :
    (l.filter (fun p => p.1 != k)).lookup k = none := by
  induction l with
  | nil => rfl
  | cons p l ih =>
    by_cases h : p.1 = k
    · simp [List.filter_cons, h, ih]
    · have h2 : (k == p.1) = false := by
        simp
        exact Ne.symm h
      simp [List.filter_cons, h, List.lookup, h2, ih]

theorem lookup_filter_ne {W : Type} (l : List (String × Task W))
    (k k2 : String) (hne : k2 ≠ k) :
    (l.filter (fun p => p.1 != k)).lookup k2 = l.lookup k2 := by
  induction l with
  | nil => rfl
  | cons p l ih =>
    by_cases h : p.1 = k
    · have h2 : (k2 == k) = false := by
        simp
        exact hne
      simp [List.filter_cons, h, List.lookup, h2, ih]
    · by_cases h3 : k2 = p.1
      · simp [List.filter_cons, h, List.lookup, h3]
      · simp [List.filter_cons, h, List.lookup, h3, ih]

theorem remove_present {W : Type} {m : TaskManager W} {k : String}
    (h : (m.mAllTasks.lookup k).isNone = false) :
    TaskManager.Remove m k
      = TaskManager.mk (m.mAllTasks.filter (fun p => p.1 != k)) := by
  simp [TaskManager.Remove, h]

/-! ## Claim theorems: TaskManager Add and Remove -/

/-- C5: Add with an already-present key is a no-op on the registry: the
registry value is returned unchanged (so the existing entry under the
key, with its callable, interval and deadline, is untouched) and the
incoming task is not stored (it stays with the caller). -/
theorem duplicate_add_noop {W : Type} (m : TaskManager W) (k : String)
    (t0 t : Task W) (h : m.mAllTasks.lookup k = some t0) :
    TaskManager.Add m k t = (m, some t)
    ∧ (TaskManager.Add m k t).1.mAllTasks.lookup k = some t0 := by
  have hs : (m.mAllTasks.lookup k).isSome = true := by
    rw [h]
    rfl
  constructor
  · simp [TaskManager.Add, hs]
  · simp [TaskManager.Add, hs, h]

/-- Witness for C5: adding under the taken key "a" changes nothing. -/
theorem duplicate_add_noop_witness :
    TaskManager.Add
        (TaskManager.mk [("a", Task.mk true Nat.succ 5 5)]) "a"
        (Task.mk true Nat.succ 9 9)
      = (TaskManager.mk [("a", Task.mk true Nat.succ 5 5)],
         some (Task.mk true Nat.succ 9 9))
    ∧ (TaskManager.Add
        (TaskManager.mk [("a", Task.mk true Nat.succ 5 5)]) "a"
        (Task.mk true Nat.succ 9 9)).1.mAllTasks.lookup "a"
      = some (Task.mk true Nat.succ 5 5) :=
  duplicate_add_noop (TaskManager.mk [("a", Task.mk true Nat.succ 5 5)])
    "a" (Task.mk true Nat.succ 5 5) (Task.mk true Nat.succ 9 9) rfl

/-- C7: Remove on an absent key is the identity on the registry; after
Remove the key is absent (the owned task was deleted when it was
present); the entry of every other key is unchanged; and Remove is
idempotent. -/
theorem remove_idempotent_noop {W : Type} (m : TaskManager W)
    (k : String) :
    (m.mAllTasks.lookup k = none → TaskManager.Remove m k = m)
    ∧ (TaskManager.Remove m k).mAllTasks.lookup k = none
    ∧ (∀ k2, k2 ≠ k →
        (TaskManager.Remove m k).mAllTasks.lookup k2
          = m.mAllTasks.lookup k2)
    ∧ TaskManager.Remove (TaskManager.Remove m k) k
        = TaskManager.Remove m k := by
  have habs : ∀ m2 : TaskManager W, m2.mAllTasks.lookup k = none →
      TaskManager.Remove m2 k = m2 := by
    intro m2 h
    simp [TaskManager.Remove, h]
  have hnone : ∀ h : ¬ m.mAllTasks.lookup k = none,
      (m.mAllTasks.lookup k).isNone = false := by
    intro h
    cases hx : m.mAllTasks.lookup k
    · exact absurd hx h
    · rfl
  have hgone : (TaskManager.Remove m k).mAllTasks.lookup k = none := by
    by_cases h : m.mAllTasks.lookup k = none
    · rw [habs m h]
      exact h
    · rw [remove_present (hnone h)]
      exact lookup_filter_self m.mAllTasks k
  refine ⟨habs m, hgone, ?_, habs (TaskManager.Remove m k) hgone⟩
  intro k2 hne
  by_cases h : m.mAllTasks.lookup k = none
  · rw [habs m h]
  · rw [remove_present (hnone h)]
    exact lookup_filter_ne m.mAllTasks k k2 hne

/-- Witness for C7: removing "b" twice equals removing it once, the
entry under "b" is gone, and the entry under "a" is untouched; removing
the absent key "z" is the identity. -/
theorem remove_idempotent_noop_witness :
    TaskManager.Remove (TaskManager.Remove
        (TaskManager.mk [("a", Task.mk true Nat.succ 5 5),
          ("b", Task.mk true Nat.succ 7 7)]) "b") "b"
      = TaskManager.Remove
        (TaskManager.mk [("a", Task.mk true Nat.succ 5 5),
          ("b", Task.mk true Nat.succ 7 7)]) "b"
    ∧ (TaskManager.Remove
        (TaskManager.mk [("a", Task.mk true Nat.succ 5 5),
          ("b", Task.mk true Nat.succ 7 7)]) "b").mAllTasks.lookup "b"
      = none
    ∧ (TaskManager.Remove
        (TaskManager.mk [("a", Task.mk true Nat.succ 5 5),
          ("b", Task.mk true Nat.succ 7 7)]) "b").mAllTasks.lookup "a"
      = some (Task.mk true Nat.succ 5 5)
    ∧ TaskManager.Remove
        (TaskManager.mk ([] : List (String × Task Nat))) "z"
      = TaskManager.mk [] := by
  have h := remove_idempotent_noop
    (TaskManager.mk [("a", Task.mk true Nat.succ 5 5),
      ("b", Task.mk true Nat.succ 7 7)]) "b"
  have h0 := remove_idempotent_noop
    (TaskManager.mk ([] : List (String × Task Nat))) "z"
  refine ⟨h.2.2.2, h.2.1, ?_, h0.1 rfl⟩
  rw [h.2.2.1 "a" (by decide)]
  simp [List.lookup]

/-- C10: when Add is rejected because the key is already present, the
caller keeps ownership of the incoming task (the returned owning
pointer is still some t, the very task passed in, not destroyed) and
the registry is unchanged. -/
theorem rejected_add_keeps_ownership {W : Type} (m : TaskManager W)
    (k : String) (t : Task W)
    (h : (m.mAllTasks.lookup k).isSome = true) :
    (TaskManager.Add m k t).2 = some t
    ∧ (TaskManager.Add m k t).1 = m := by
  simp [TaskManager.Add, h]

/-- Witness for C10: the task rejected under the taken key "x" comes
back to the caller and the registry keeps only its old entry. -/
theorem rejected_add_keeps_ownership_witness :
    (TaskManager.Add (TaskManager.mk [("x", Task.mk true Nat.succ 3 4)])
        "x" (Task.mk false Nat.succ 1 2)).2
      = some (Task.mk false Nat.succ 1 2)
    ∧ (TaskManager.Add (TaskManager.mk [("x", Task.mk true Nat.succ 3 4)])
        "x" (Task.mk false Nat.succ 1 2)).1
      = TaskManager.mk [("x", Task.mk true Nat.succ 3 4)] :=
  rejected_add_keeps_ownership
    (TaskManager.mk [("x", Task.mk true Nat.succ 3 4)]) "x"
    (Task.mk false Nat.succ 1 2) rfl

end NanoTask

namespace NanoTask

/-! ## Lemmas about one Update call, split into state part and world part -/

theorem canExecute_mTask {W : Type} (t : Task W) (now : Int) :
    (Task.CanExecuteTask t now).1.mTask = t.mTask := by
  simp only [Task.CanExecuteTask]
  split
  · rfl
  · split <;> rfl

theorem update_fst {W : Type} (t : Task W) (now : Int) (w : W) :
    (Task.Update t now w).1 = Task.step t now := by
  by_cases h : (Task.CanExecuteTask t now).2 = false <;>
    simp [Task.Update, Task.step, h]

theorem update_snd {W : Type} (t : Task W) (now : Int) (w : W) :
    (Task.Update t now w).2
      = if Task.fires t now then t.mTask w else w := by
  by_cases h : (Task.CanExecuteTask t now).2 = false <;>
    simp [Task.Update, Task.fires, h, canExecute_mTask]

theorem updateAll_fst {W : Type} (l : List (String × Task W)) (now : Int)
    (w : W) :
    (updateAll l now w).1 = l.map (fun q => (q.1, Task.step q.2 now)) := by
  induction l generalizing w with
  | nil => rfl
  | cons p l ih => simp [updateAll, update_fst, ih]

theorem updateAll_count (l : List (String × Task Nat)) (now : Int)
    (w : Nat) (h : ∀ q ∈ l, q.2.mTask = Nat.succ) :
    (updateAll l now w).2
      = w + l.countP (fun q => Task.fires q.2 now) := by
  induction l generalizing w with
  | nil => simp [updateAll]
  | cons p l ih =>
    have hp : p.2.mTask = Nat.succ := h p (List.mem_cons_self p l)
    have hrest : ∀ q ∈ l, q.2.mTask = Nat.succ :=
      fun q hq => h q (List.mem_cons_of_mem p hq)
    have hstep : (updateAll (p :: l) now w).2
        = (updateAll l now ((Task.Update p.2 now w).2)).2 := rfl
    rw [hstep, ih _ hrest, update_snd, hp, List.countP_cons]
    by_cases hf : Task.fires p.2 now
    · simp only [hf, if_true]
      omega
    · simp only [hf, Bool.false_eq_true, if_false]
      omega

/-- C4: one TaskManager::Update sweep updates every owned task exactly
once — the new entry list is the pointwise step of the old one, in any
world — and, counting invocations with successor callables, the world
advances by exactly the number of due tasks, one invocation per due
task; that count is invariant under permutation of the entry list, so
it does not depend on registration or iteration order. -/
theorem registry_fanout :
    (∀ (W : Type) (m : TaskManager W) (now : Int) (w : W),
        ((TaskManager.Update m now w).1).mAllTasks
          = m.mAllTasks.map (fun q => (q.1, Task.step q.2 now)))
    ∧ (∀ (m : TaskManager Nat) (now : Int) (w : Nat),
        (∀ q ∈ m.mAllTasks, q.2.mTask = Nat.succ) →
        (TaskManager.Update m now w).2
          = w + m.mAllTasks.countP (fun q => Task.fires q.2 now))
    ∧ (∀ (m m2 : TaskManager Nat) (now : Int) (w : Nat),
        (∀ q ∈ m.mAllTasks, q.2.mTask = Nat.succ) →
        m.mAllTasks.Perm m2.mAllTasks →
        (TaskManager.Update m now w).2
          = (TaskManager.Update m2 now w).2) := by
  have hfst : ∀ (W : Type) (m : TaskManager W) (now : Int) (w : W),
      ((TaskManager.Update m now w).1).mAllTasks
        = m.mAllTasks.map (fun q => (q.1, Task.step q.2 now)) := by
    intro W m now w
    have h0 : (TaskManager.Update m now w).1.mAllTasks
        = (updateAll m.mAllTasks now w).1 := rfl
    rw [h0, updateAll_fst]
  have hcnt : ∀ (m : TaskManager Nat) (now : Int) (w : Nat),
      (∀ q ∈ m.mAllTasks, q.2.mTask = Nat.succ) →
      (TaskManager.Update m now w).2
        = w + m.mAllTasks.countP (fun q => Task.fires q.2 now) := by
    intro m now w h
    have h0 : (TaskManager.Update m now w).2
        = (updateAll m.mAllTasks now w).2 := rfl
    rw [h0, updateAll_count _ _ _ h]
  refine ⟨hfst, hcnt, ?_⟩
  intro m m2 now w h hperm
  have h2 : ∀ q ∈ m2.mAllTasks, q.2.mTask = Nat.succ :=
    fun q hq => h q (hperm.mem_iff.mpr hq)
  rw [hcnt m now w h, hcnt m2 now w h2, hperm.countP_eq]

/-- Witness for C4: of two owned tasks polled at time 10, only the due
one (deadline 5) fires, exactly once. -/
theorem registry_fanout_witness :
    (TaskManager.Update (TaskManager.mk
        [("a", Task.mk true Nat.succ 5 10),
         ("b", Task.mk true Nat.succ 20 10)]) 10 0).2 = 1 :=
  registry_fanout.2.1
    (TaskManager.mk [("a", Task.mk true Nat.succ 5 10),
      ("b", Task.mk true Nat.succ 20 10)]) 10 0
    (by
      intro q hq
      rcases List.mem_cons.mp hq with h | h
      · rw [h]
      · rcases List.mem_cons.mp h with h2 | h2
        · rw [h2]
        · exact absurd h2 (List.not_mem_nil q))

/-! ## Exception propagation through a sweep -/

theorem taskEUpdate_due_error {W E : Type} {t : TaskE W E} {now : Int}
    (ha : t.mHasSetInterval = true) (hd : t.mNextExecStamp ≤ now)
    {w : W} {e : E} (he : t.mTask w = Except.error e) :
    TaskE.Update t now w = Except.error e := by
  simp [TaskE.Update, TaskE.CanExecuteTask, ha, not_lt.mpr hd, he]

theorem updateAllE_cons_error {W E : Type} {p : String × TaskE W E}
    {now : Int} {w : W} {e : E}
    (hu : TaskE.Update p.2 now w = Except.error e)
    (l : List (String × TaskE W E)) :
    updateAllE (p :: l) now w = Except.error e := by
  simp [updateAllE, hu]

theorem updateAllE_cons_ok {W E : Type} {p : String × TaskE W E}
    {now : Int} {w : W} {t2 : TaskE W E} {w2 : W}
    (hu : TaskE.Update p.2 now w = Except.ok (t2, w2))
    (l : List (String × TaskE W E)) :
    updateAllE (p :: l) now w
      = match updateAllE l now w2 with
        | Except.error e => Except.error e
        | Except.ok (l3, w3) => Except.ok ((p.1, t2) :: l3, w3) := by
  simp [updateAllE, hu]

/-- C9: if every task before a due task with a throwing callable
completes its Update normally (reaching world w1), and the callable of
that due task raises e at w1, then the whole sweep returns exactly that
error e, unmodified, whatever tasks follow it in iteration order: the
remaining entries l2 are never polled (the result does not depend on
them, even if their callables would raise different errors). -/
theorem callable_exception_propagates {W E : Type} (now : Int)
    (k : String) (t : TaskE W E) (e : E)
    (ha : t.mHasSetInterval = true) (hd : t.mNextExecStamp ≤ now)
    (l1 : List (String × TaskE W E)) (w w1 : W)
    (l1r : List (String × TaskE W E))
    (h1 : updateAllE l1 now w = Except.ok (l1r, w1))
    (he : t.mTask w1 = Except.error e)
    (l2 : List (String × TaskE W E)) :
    updateAllE (l1 ++ (k, t) :: l2) now w = Except.error e := by
  revert h1
  induction l1 generalizing w l1r with
  | nil =>
    intro h1
    simp only [updateAllE, Except.ok.injEq, Prod.mk.injEq] at h1
    obtain ⟨h1a, h1b⟩ := h1
    subst h1b
    rw [List.nil_append]
    exact updateAllE_cons_error (taskEUpdate_due_error ha hd he) l2
  | cons p l1 ih =>
    intro h1
    rw [List.cons_append]
    cases hu : TaskE.Update p.2 now w with
    | error e2 =>
      rw [updateAllE_cons_error hu l1] at h1
      cases h1
    | ok pr =>
      obtain ⟨t2, w2⟩ := pr
      rw [updateAllE_cons_ok hu l1] at h1
      rw [updateAllE_cons_ok hu (l1 ++ (k, t) :: l2)]
      cases hrest : updateAllE l1 now w2 with
      | error e2 =>
        rw [hrest] at h1
        cases h1
      | ok pr2 =>
        obtain ⟨lr2, w3⟩ := pr2
        rw [hrest] at h1
        simp only [Except.ok.injEq, Prod.mk.injEq] at h1
        obtain ⟨h1a, h1b⟩ := h1
        subst h1b
        rw [ih w2 lr2 hrest]

/-- Witness for C9: the first task succeeds (world becomes 1), the
second raises error 7, the third — which would raise error 9 — is
never polled; the sweep returns error 7. -/
theorem callable_exception_propagates_witness :
    updateAllE
        [("a", TaskE.mk (W := Nat) (E := Nat) true
            (fun n => Except.ok (n + 1)) 0 5),
          ("x", TaskE.mk true (fun _ => Except.error 7) 0 5),
          ("c", TaskE.mk true (fun _ => Except.error 9) 0 5)] 10 0
      = Except.error 7 :=
  callable_exception_propagates (W := Nat) (E := Nat) 10 "x"
    (TaskE.mk true (fun _ => Except.error 7) 0 5) 7 rfl (by decide)
    [("a", TaskE.mk true (fun n => Except.ok (n + 1)) 0 5)] 0 1
    [("a", TaskE.mk true (fun n => Except.ok (n + 1)) 15 5)] rfl rfl
    [("c", TaskE.mk true (fun _ => Except.error 9) 0 5)]

end NanoTask
